import Mathlib

/-!
Shallow embedding of `src/main.rs` (the `zst` CLI): a parallel folder
compressor.  `compress_folder` enumerates regular files with `WalkDir`,
reads each file in 8 KiB chunks, compresses its bytes individually with
`zstd::encode_all(_, 21)`, builds a GNU tar header, and pushes a
`FileData` record into a mutex-guarded vector from a rayon parallel
iterator.  Successful entries are then appended to a tar builder wrapped
in a container-level zstd encoder.  `decompress_folder` opens the
archive, decodes the container-level zstd stream and calls
`tar::Archive::unpack` — it never decompresses the per-file payloads.

Bytes are modelled as `List Nat`; relative paths as `List String`
(the path components, as produced by `strip_prefix(input_folder)`).
External collaborators (the zstd codec and the tar crate's
`Header::set_path` validation) are parameters gathered in `Externals`;
the container-level tar + zstd framing is lossless, so the reader is
modelled as seeing exactly the entry list the writer appended.
-/

abbrev Bytes := List Nat

/-- The 8192-byte read buffer `let mut chunk = [0u8; 8192]`. -/
def chunkSize : Nat := 8192

/-- The parts of a `tar::Header` the program uses: `set_path` stores the
relative path, `set_size` the payload length.  (`set_cksum` fills the
tar checksum field inside the external crate and no claim depends on
it, so it is not carried in the model.) -/
structure Header where
  path : List String
  size : Nat
deriving DecidableEq

/-- `Header::new_gnu()` before any field is set. -/
def Header.newGnu : Header := ⟨[], 0⟩

/-- What the filesystem may answer about one `WalkDir` entry.
`relPath` is `path.strip_prefix(input_folder)`, `content` the bytes a
fully successful sequence of reads would deliver (for a regular file
this is also `metadata().len()`), `openOk` whether `File::open`
succeeds, and `readErrAt = some k` injects an `Err` on the k-th call to
`file.read` (the end-of-stream read counts as a call). -/
inductive FileKind
  | file
  | dir
  | symlink
deriving DecidableEq

structure DirEntry where
  relPath : List String
  kind : FileKind
  content : Bytes
  openOk : Bool
  readErrAt : Option Nat
deriving DecidableEq

/-- External collaborators of the pipeline: `zstd::encode_all(data,
level)` (fallible, per the spec's `CompressError`) and the success of
`tar::Header::set_path` (the GNU name field has length/encoding
limits). -/
structure Externals where
  zstdEncode : Nat → Bytes → Option Bytes
  pathOk : List String → Bool

/-- `struct FileData` from the source. -/
structure FileData where
  rel_path : List String
  compressed : Bytes
  header : Header
  success : Bool
deriving DecidableEq

/-- The enumeration
`WalkDir::new(input).into_iter().filter_map(Result::ok).filter(|e| e.file_type().is_file())`:
`none` items are `Err` results from the walker (dropped silently), and
only regular files survive the filter (directories and symlinks are
not files; `WalkDir` does not follow links by default). -/
def discover (walk : List (Option DirEntry)) : List DirEntry :=
  (walk.filterMap id).filter (fun e => e.kind = FileKind.file)

/-- The read loop: `file.read(&mut chunk)` delivers the next at most
8192 bytes of the remaining stream; `Ok(0)` breaks, `Err` aborts the
file returning no buffer.  Returns (bytes added to the progress bar,
the accumulated buffer or `none` on a read error). -/
def ingestLoop (rest : Bytes) (errAt : Option Nat) : Nat × Option Bytes :=
  if errAt = some 0 then (0, none)
  else if h : rest = [] then (0, some [])
  else
    let chunk := rest.take chunkSize
    let r := ingestLoop (rest.drop chunkSize) (errAt.map (fun k => k - 1))
    (chunk.length + r.1, r.2.map (fun b => chunk ++ b))
termination_by rest.length
decreasing_by
  simp only [List.length_drop, chunkSize]
  have hpos : 0 < rest.length := List.length_pos.mpr h
  omega

/-- `File::open` followed by the read loop; an open failure reads
nothing (progress 0, no buffer). -/
def ingestFile (e : DirEntry) : Nat × Option Bytes :=
  if e.openOk then ingestLoop e.content e.readErrAt else (0, none)

/-- FileIngestor result: the buffer, or `none` if open or a read failed. -/
def ingest (e : DirEntry) : Option Bytes := (ingestFile e).2

/-- Bytes this file contributed to the shared progress counter
(`global_pb.inc(n)` after each successful read). -/
def fileProgress (e : DirEntry) : Nat := (ingestFile e).1

/-- The body of the `par_iter().for_each` closure: one `FileData` per
task.  Open/read failure and compression failure push an entry with an
empty payload and a fresh header; a `set_path` failure pushes the entry
with the already-computed `compressed` bytes but a fresh header; success
pushes the compressed payload under a header carrying the path and the
payload length. -/
def processFile (ext : Externals) (e : DirEntry) : FileData :=
  match ingest e with
  | none => ⟨e.relPath, [], Header.newGnu, false⟩
  | some buffer =>
    match ext.zstdEncode 21 buffer with
    | none => ⟨e.relPath, [], Header.newGnu, false⟩
    | some compressed =>
      if ext.pathOk e.relPath then
        ⟨e.relPath, compressed, ⟨e.relPath, compressed.length⟩, true⟩
      else
        ⟨e.relPath, compressed, Header.newGnu, false⟩

/-- The aggregated vector when tasks happen to finish in discovery
order.  (Concurrent completion order is modelled by `IsRunOutcome`.) -/
def runResults (ext : Externals) (walk : List (Option DirEntry)) : List FileData :=
  (discover walk).map (processFile ext)

/-- A possible content of the mutex-guarded `results` vector after the
rayon loop: every task appends its own entry exactly once, in some
interleaving, so the vector is the image of some permutation of the
discovered tasks. -/
def IsRunOutcome (ext : Externals) (walk : List (Option DirEntry))
    (results : List FileData) : Prop :=
  ∃ order : List DirEntry, order.Perm (discover walk) ∧
    results = order.map (processFile ext)

/-- `metadata().unwrap().len()` summed over the discovered entries:
the up-front total for the progress bar. -/
def totalSize (walk : List (Option DirEntry)) : Nat :=
  ((discover walk).map (fun e => e.content.length)).sum

/-- Final value of the shared progress counter: the sum of every
task's increments (atomic increments commute, so the sum is
order-independent). -/
def runProgress (walk : List (Option DirEntry)) : Nat :=
  ((discover walk).map fileProgress).sum

/-- The writer loop
`for file in results.iter().filter(|f| f.success) { tar.append(&file.header, &file.compressed) }`:
the tar entries appended, in results order. -/
def writeArchive : List FileData → List (Header × Bytes)
  | [] => []
  | f :: rest =>
    if f.success then (f.header, f.compressed) :: writeArchive rest
    else writeArchive rest

/-- The console report loop: one `path [OK|ERR]` line per entry of
`results`, in results order. -/
def reportLines : List FileData → List (List String × String)
  | [] => []
  | f :: rest =>
    (f.rel_path, if f.success then "OK" else "ERR") :: reportLines rest

/-- `File::create(output_file)?` and `Encoder::new(output, 21)?`: the
only archive-level fallible steps of `compress_folder` (per-file
failures never reach `?`). -/
structure CompressIo where
  createOk : Bool

/-- `compress_folder` as observed from `main`: runs the pipeline, then
creates the output archive; an output-creation failure is the `Err`
that `main` propagates.  On success it yields the results vector and
the tar entries written. -/
def compress_folder (ext : Externals) (cio : CompressIo)
    (walk : List (Option DirEntry)) :
    Except Unit (List FileData × List (Header × Bytes)) :=
  let results := runResults ext walk
  if cio.createOk then Except.ok (results, writeArchive results)
  else Except.error ()

/-- Process exit code of `zst compress`: `main` returns the
`io::Result`, so `Ok` exits 0 and `Err` exits nonzero (1). -/
def compressExit (ext : Externals) (cio : CompressIo)
    (walk : List (Option DirEntry)) : Nat :=
  match compress_folder ext cio walk with
  | Except.ok _ => 0
  | Except.error _ => 1

/-- The logical archive: the (path, payload) pairs the container holds.
The container-level tar framing plus zstd stream is lossless, so the
reader decodes exactly these pairs. -/
def compressEntries (ext : Externals) (walk : List (Option DirEntry)) :
    List (List String × Bytes) :=
  (writeArchive (runResults ext walk)).map (fun hb => (hb.1.path, hb.2))

/-- A path escapes the output directory when it contains a
parent-traversal component. -/
def unsafePath (p : List String) : Bool := p.any (fun c => c = "..")

inductive UnpackError
  | unsafePathError
deriving DecidableEq

/-- Modelled from the spec: `tar::Archive::unpack` lives in the external
tar crate (not in `src/`); per §4.6 it materializes every entry's
payload bytes at `output_dir/relative_path` — without re-decompressing
per-file payloads — and a path escaping `output_dir` (e.g. via `..`) is
rejected with `UnsafePathError`, writing no file outside the target
directory.  Returns the (path, content) pairs written on success. -/
def unpackEntries : List (List String × Bytes) →
    Except UnpackError (List (List String × Bytes))
  | [] => Except.ok []
  | (p, b) :: rest =>
    if unsafePath p then Except.error UnpackError.unsafePathError
    else (unpackEntries rest).map (fun fs => (p, b) :: fs)

/-- `decompress_folder` applied to the archive `compress_folder`
produced: decode the container stream, unpack every entry. -/
def extractRun (ext : Externals) (walk : List (Option DirEntry)) :
    Except UnpackError (List (List String × Bytes)) :=
  unpackEntries (compressEntries ext walk)

/-! ## Helper lemmas -/

theorem ingestLoop_none (content : Bytes) :
    ingestLoop content none = (content.length, some content) := by
  rw [ingestLoop]
  by_cases hc : content = []
  · subst hc
    simp
  · have hlt : (content.drop chunkSize).length < content.length := by
      simp only [List.length_drop, chunkSize]
      have hpos : 0 < content.length := List.length_pos.mpr hc
      omega
    have ih := ingestLoop_none (content.drop chunkSize)
    have hlen : (content.take chunkSize).length + (content.drop chunkSize).length
        = content.length := by
      rw [← List.length_append, List.take_append_drop]
    simp only [Option.map_none', dif_neg hc, ih, reduceCtorEq, if_false]
    rw [Option.map_some', List.take_append_drop, hlen]
termination_by content.length
decreasing_by
  simp only [List.length_drop, chunkSize]
  have hpos : 0 < content.length := List.length_pos.mpr hc
  omega

theorem ingestLoop_progress_le (content : Bytes) (errAt : Option Nat) :
    (ingestLoop content errAt).1 ≤ content.length := by
  rw [ingestLoop]
  by_cases he : errAt = some 0
  · simp [he]
  · by_cases hc : content = []
    · simp [he, hc]
    · have hlt : (content.drop chunkSize).length < content.length := by
        simp only [List.length_drop, chunkSize]
        have hpos : 0 < content.length := List.length_pos.mpr hc
        omega
      have ih := ingestLoop_progress_le (content.drop chunkSize)
        (errAt.map (fun k => k - 1))
      simp only [if_neg he, dif_neg hc]
      have hlen : (content.take chunkSize).length + (content.drop chunkSize).length
          = content.length := by
        rw [← List.length_append, List.take_append_drop]
      simp only [List.length_drop] at ih hlen ⊢
      omega
termination_by content.length
decreasing_by
  simp only [List.length_drop, chunkSize]
  have hpos : 0 < content.length := List.length_pos.mpr hc
  omega

theorem writeArchive_eq_filter (l : List FileData) :
    writeArchive l
      = (l.filter (fun f => f.success)).map (fun f => (f.header, f.compressed)) := by
  induction l with
  | nil => rfl
  | cons f rest ih =>
    by_cases hs : f.success
    · simp [writeArchive, List.filter_cons, hs, ih]
    · simp [writeArchive, List.filter_cons, hs, ih]

theorem reportLines_eq_map (l : List FileData) :
    reportLines l
      = l.map (fun f => (f.rel_path, if f.success then "OK" else "ERR")) := by
  induction l with
  | nil => rfl
  | cons f rest ih => simp [reportLines, ih]

theorem writeArchive_mem {l : List FileData} {x : Header × Bytes}
    (hx : x ∈ writeArchive l) :
    ∃ f ∈ l, f.success = true ∧ x = (f.header, f.compressed) := by
  rw [writeArchive_eq_filter] at hx
  rcases List.mem_map.mp hx with ⟨f, hf, hfx⟩
  rcases List.mem_filter.mp hf with ⟨hfl, hfs⟩
  exact ⟨f, hfl, by simpa using hfs, hfx.symm⟩

theorem processFile_rel_path (ext : Externals) (e : DirEntry) :
    (processFile ext e).rel_path = e.relPath := by
  unfold processFile
  split
  · rfl
  · split
    · rfl
    · split
      · rfl
      · rfl

theorem unpackEntries_error_of_escape
    {entries : List (List String × Bytes)} {p : List String} {b : Bytes}
    (hmem : (p, b) ∈ entries) (hup : unsafePath p = true) :
    unpackEntries entries = Except.error UnpackError.unsafePathError := by
  induction entries with
  | nil => cases hmem
  | cons hd rest ih =>
    rcases hd with ⟨q, c⟩
    rcases List.mem_cons.mp hmem with heq | htl
    · rw [unpackEntries]
      have : q = p := congrArg Prod.fst heq.symm
      rw [this, if_pos hup]
    · rw [unpackEntries]
      by_cases hq : unsafePath q
      · rw [if_pos hq]
      · rw [if_neg hq, ih htl]
        rfl

theorem unpackEntries_ok_safe
    {entries files : List (List String × Bytes)}
    (hok : unpackEntries entries = Except.ok files) :
    ∀ pb ∈ files, unsafePath pb.1 = false := by
  induction entries generalizing files with
  | nil =>
    simp only [unpackEntries] at hok
    cases hok
    intro pb hpb
    cases hpb
  | cons hd rest ih =>
    rcases hd with ⟨q, c⟩
    rw [unpackEntries] at hok
    by_cases hq : unsafePath q
    · rw [if_pos hq] at hok
      cases hok
    · rw [if_neg hq] at hok
      cases hrest : unpackEntries rest with
      | error err => rw [hrest] at hok; cases hok
      | ok fs =>
        rw [hrest] at hok
        cases hok
        intro pb hpb
        rcases List.mem_cons.mp hpb with heq | htl
        · subst heq
          simpa using hq
        · exact ih hrest pb htl

theorem processFile_success_header (ext : Externals) (e : DirEntry)
    (h : (processFile ext e).success = true) :
    (processFile ext e).header.path = e.relPath := by
  cases hi : ingest e with
  | none => simp [processFile, hi] at h
  | some buffer =>
    cases hz : ext.zstdEncode 21 buffer with
    | none => simp [processFile, hi, hz] at h
    | some compressed =>
      by_cases hp : ext.pathOk e.relPath
      · simp [processFile, hi, hz, hp]
      · simp [processFile, hi, hz, hp] at h

/-! ## Concrete fixtures

`extMagic` is a lossless stand-in for the zstd codec: every real zstd
frame begins with the magic number 0xFD2FB528 (little-endian bytes
40, 181, 47, 253), so the encoder output always differs from a typical
input.  `extBadPath` is the same codec with `Header::set_path` failing
on every path (as it does for paths that exceed the GNU name field). -/

def extMagic : Externals :=
  ⟨fun _ b => some (40 :: 181 :: 47 :: 253 :: b), fun _ => true⟩

def extBadPath : Externals :=
  ⟨fun _ b => some (40 :: 181 :: 47 :: 253 :: b), fun _ => false⟩

/-- A regular readable file `a.txt` containing the two bytes "hi". -/
def fileA : DirEntry := ⟨["a.txt"], FileKind.file, [104, 105], true, none⟩

/-- A regular file whose `File::open` fails. -/
def fileBad : DirEntry := ⟨["b.txt"], FileKind.file, [1, 2, 3], false, none⟩

def dirB : DirEntry := ⟨["sub"], FileKind.dir, [], true, none⟩

def linkC : DirEntry := ⟨["l"], FileKind.symlink, [], true, none⟩

def walkOne : List (Option DirEntry) := [some fileA]

def walkTwo : List (Option DirEntry) := [some fileA, some fileBad]

def walkMixed : List (Option DirEntry) :=
  [some fileA, some dirB, none, some linkC]

theorem ingest_fileA : ingest fileA = some [104, 105] := by
  have h := ingestLoop_none ([104, 105] : Bytes)
  simp [ingest, ingestFile, fileA, h]

theorem processFile_extMagic_fileA :
    processFile extMagic fileA
      = ⟨["a.txt"], [40, 181, 47, 253, 104, 105], ⟨["a.txt"], 6⟩, true⟩ := by
  unfold processFile
  rw [ingest_fileA]
  rfl

/-! ## Claim theorems -/

/-- Claim C1: the spec's round-trip property fails on the code.  `extract`
(container zstd decode + `tar::Archive::unpack`) never undoes the
per-file `zstd::encode_all`, so for the folder holding the single
readable file `a.txt` with bytes "hi" ([104, 105]) the extracted file
holds the per-file zstd frame (magic-number-prefixed compressed bytes),
not the original content. -/
theorem roundtrip_extracts_compressed_payload :
    extractRun extMagic walkOne
      = Except.ok [(["a.txt"], [40, 181, 47, 253, 104, 105])]
    ∧ ([40, 181, 47, 253, 104, 105] : Bytes) ≠ [104, 105]
    ∧ (extMagic.zstdEncode 21 fileA.content
        = some [40, 181, 47, 253, 104, 105]) := by
  refine ⟨?_, by decide, by decide⟩
  have hrun : runResults extMagic walkOne = [processFile extMagic fileA] := rfl
  have hentries : compressEntries extMagic walkOne
      = [(["a.txt"], [40, 181, 47, 253, 104, 105])] := by
    unfold compressEntries
    rw [hrun, processFile_extMagic_fileA]
    rfl
  unfold extractRun
  rw [hentries]
  rfl

/-- Claim C2: each per-file failure (open, chunk read, compression, path
encoding) short-circuits that file's remaining stages, records a failed
entry preserving its relative path, and never aborts or corrupts the
rest of the run: every discovered file's entry is the image of that file
alone under `processFile`. -/
theorem per_file_failure_contained (ext : Externals)
    (walk : List (Option DirEntry)) (e : DirEntry) (he : e ∈ discover walk) :
    runResults ext walk = (discover walk).map (processFile ext)
    ∧ (processFile ext e).rel_path = e.relPath
    ∧ (e.openOk = false →
        processFile ext e = ⟨e.relPath, [], Header.newGnu, false⟩
        ∧ fileProgress e = 0)
    ∧ (ingest e = none →
        processFile ext e = ⟨e.relPath, [], Header.newGnu, false⟩)
    ∧ (∀ buf, ingest e = some buf → ext.zstdEncode 21 buf = none →
        processFile ext e = ⟨e.relPath, [], Header.newGnu, false⟩)
    ∧ (∀ buf cb, ingest e = some buf → ext.zstdEncode 21 buf = some cb →
        ext.pathOk e.relPath = false →
        (processFile ext e).success = false
        ∧ (processFile ext e).rel_path = e.relPath) := by
  refine ⟨rfl, processFile_rel_path ext e, ?_, ?_, ?_, ?_⟩
  · intro ho
    have hi : ingest e = none := by simp [ingest, ingestFile, ho]
    exact ⟨by simp [processFile, hi], by simp [fileProgress, ingestFile, ho]⟩
  · intro hi
    simp [processFile, hi]
  · intro buf hi hz
    simp [processFile, hi, hz]
  · intro buf cb hi hz hp
    refine ⟨?_, processFile_rel_path ext e⟩
    simp [processFile, hi, hz, hp]

theorem per_file_failure_contained_witness :
    processFile extMagic fileBad = ⟨fileBad.relPath, [], Header.newGnu, false⟩
    ∧ fileProgress fileBad = 0 :=
  (per_file_failure_contained extMagic walkTwo fileBad (by decide)).2.2.1 rfl

/-- Claim C3: whatever interleaving the worker pool produces, the
aggregated results vector has exactly one entry per discovered file —
none dropped, none duplicated — and the multiset of recorded relative
paths is exactly the multiset of discovered relative paths. -/
theorem run_has_one_entry_per_file (ext : Externals)
    (walk : List (Option DirEntry)) (results : List FileData)
    (h : IsRunOutcome ext walk results) :
    results.length = (discover walk).length
    ∧ (results.map (fun f => f.rel_path)).Perm
        ((discover walk).map (fun e => e.relPath)) := by
  rcases h with ⟨order, hperm, hres⟩
  subst hres
  constructor
  · rw [List.length_map, hperm.length_eq]
  · have h1 : (order.map (processFile ext)).map (fun f => f.rel_path)
        = order.map (fun e => e.relPath) := by
      rw [List.map_map]
      exact List.map_congr_left (fun e _ => processFile_rel_path ext e)
    rw [h1]
    exact hperm.map (fun e => e.relPath)

theorem run_has_one_entry_per_file_witness :
    (runResults extMagic walkTwo).length = (discover walkTwo).length :=
  (run_has_one_entry_per_file extMagic walkTwo (runResults extMagic walkTwo)
    ⟨discover walkTwo, List.Perm.refl _, rfl⟩).1

/-- Claim C4 as stated is false: a file that fails only at
`header.set_path` is pushed with `success = false` but with the
already-computed non-empty compressed payload (main.rs line 127-132
pushes `compressed`, not `vec![]`). -/
theorem failed_entry_payload_not_empty :
    (processFile extBadPath fileA).success = false
    ∧ (processFile extBadPath fileA).compressed ≠ [] := by
  constructor <;>
    simp [processFile, ingest_fileA, extBadPath]

/-- Claim C4 amended: a failed entry carries an empty payload unless it
failed at path encoding, in which case it retains the compressed bytes
(which the writer never uses, since it filters on `success`). -/
theorem failed_entry_payload (ext : Externals) (e : DirEntry)
    (h : (processFile ext e).success = false) :
    (processFile ext e).compressed = [] ∨ ext.pathOk e.relPath = false := by
  cases hi : ingest e with
  | none => left; simp [processFile, hi]
  | some buffer =>
    cases hz : ext.zstdEncode 21 buffer with
    | none => left; simp [processFile, hi, hz]
    | some compressed =>
      by_cases hp : ext.pathOk e.relPath
      · simp [processFile, hi, hz, hp] at h
      · right
        simpa using hp

theorem failed_entry_payload_witness :
    (processFile extBadPath fileA).compressed = []
    ∨ extBadPath.pathOk fileA.relPath = false :=
  failed_entry_payload extBadPath fileA
    (by simp [processFile, ingest_fileA, extBadPath])

/-- Claim C5: the writer appends to the tar exactly the entries whose
success flag is true, in results order (failed entries are skipped from
the archive), and the console report prints one `[OK|ERR]` status line
per processed entry, successful or not, in the same results order. -/
theorem writer_skips_failures_report_covers_all (results : List FileData) :
    writeArchive results
      = (results.filter (fun f => f.success)).map
          (fun f => (f.header, f.compressed))
    ∧ reportLines results
      = results.map (fun f => (f.rel_path, if f.success then "OK" else "ERR"))
    ∧ (reportLines results).length = results.length :=
  ⟨writeArchive_eq_filter results, reportLines_eq_map results, by
    rw [reportLines_eq_map, List.length_map]⟩

/-- Claim C6 amended: the exit code of `compress` is decided solely by
the creation of the output archive — 0 when `File::create` (and the
encoder) succeed, nonzero otherwise; individual file failures never
change it, and enumeration failures cannot either, because
`filter_map(Result::ok)` silently drops every `Err` the walker yields. -/
theorem compress_exit_code (ext : Externals) (cio : CompressIo)
    (walk : List (Option DirEntry)) :
    (cio.createOk = true → compressExit ext cio walk = 0)
    ∧ (cio.createOk = false → compressExit ext cio walk ≠ 0)
    ∧ (∀ ext2 walk2, compressExit ext cio walk = compressExit ext2 cio walk2) := by
  refine ⟨?_, ?_, ?_⟩
  · intro hc
    simp [compressExit, compress_folder, hc]
  · intro hc
    simp [compressExit, compress_folder, hc]
  · intro ext2 walk2
    by_cases hc : cio.createOk
    · simp [compressExit, compress_folder, hc]
    · simp [compressExit, compress_folder, hc]

theorem compress_exit_code_witness :
    compressExit extMagic ⟨true⟩ walkTwo = 0 :=
  (compress_exit_code extMagic ⟨true⟩ walkTwo).1 rfl

/-- Claim C6, counterexample to the enumeration clause: when the input
folder cannot be enumerated, `WalkDir` yields only `Err` items, which
`filter_map(Result::ok)` discards; the run proceeds over zero files,
writes an empty archive and exits 0, where the claim demands a nonzero
exit. -/
theorem enum_failure_exits_zero :
    ([(none : Option DirEntry)].all (fun x => x.isNone) = true)
    ∧ discover [(none : Option DirEntry)] = []
    ∧ compressExit extMagic ⟨true⟩ [(none : Option DirEntry)] = 0 := by
  refine ⟨rfl, rfl, rfl⟩

/-- Claim C7 (the rejection itself lives in the external tar crate's
`unpack`, modelled from the spec): an archive holding an entry whose
path escapes the output directory is rejected with `UnsafePathError`
(extraction returns no file set), and any successful extraction writes
only paths that stay inside the target directory. -/
theorem unsafe_entry_rejected (entries : List (List String × Bytes))
    (h : ∃ pb ∈ entries, unsafePath pb.1 = true) :
    unpackEntries entries = Except.error UnpackError.unsafePathError
    ∧ (∀ es fs, unpackEntries es = Except.ok fs →
        ∀ pb ∈ fs, unsafePath pb.1 = false) := by
  rcases h with ⟨⟨p, b⟩, hmem, hp⟩
  exact ⟨unpackEntries_error_of_escape hmem hp,
    fun es fs hok => unpackEntries_ok_safe hok⟩

theorem unsafe_entry_rejected_witness :
    unpackEntries [(["..", "..", "evil"], [1])]
      = Except.error UnpackError.unsafePathError :=
  (unsafe_entry_rejected [(["..", "..", "evil"], [1])]
    ⟨(["..", "..", "evil"], [1]), by decide, by decide⟩).1

/-- Claim C8: when the open and every 8 KiB chunk read succeed, the
ingested buffer is the complete, exact byte content of the file — no
truncation, no reordering — and the progress increments total exactly
its length. -/
theorem ingest_exact_content (e : DirEntry)
    (hopen : e.openOk = true) (hread : e.readErrAt = none) :
    ingest e = some e.content ∧ fileProgress e = e.content.length := by
  unfold ingest fileProgress ingestFile
  rw [hopen, hread]
  simp [ingestLoop_none]

theorem ingest_exact_content_witness :
    ingest fileA = some fileA.content
    ∧ fileProgress fileA = fileA.content.length :=
  ingest_exact_content fileA rfl rfl

/-- Claim C9 amended: the progress counter advances only by bytes
actually read — each file contributes at most its byte size, so at
completion the counter is at most the up-front total (the sum of all
discovered file sizes) — and it equals that total whenever every
discovered file is opened and read to end-of-stream successfully.  (The
unconditional equality of the original claim fails, e.g. under a failed
open; equality can survive some failures, such as a read error at the
end-of-stream call, after every byte is already counted.) -/
theorem progress_counter (walk : List (Option DirEntry)) :
    (∀ e ∈ discover walk, fileProgress e ≤ e.content.length)
    ∧ runProgress walk ≤ totalSize walk
    ∧ ((∀ e ∈ discover walk, e.openOk = true ∧ e.readErrAt = none) →
        runProgress walk = totalSize walk) := by
  have hle : ∀ e ∈ discover walk, fileProgress e ≤ e.content.length := by
    intro e he
    unfold fileProgress ingestFile
    by_cases ho : e.openOk
    · simpa [ho] using ingestLoop_progress_le e.content e.readErrAt
    · simp [ho]
  refine ⟨hle, ?_, ?_⟩
  · unfold runProgress totalSize
    exact List.sum_le_sum hle
  · intro hall
    unfold runProgress totalSize
    have hmap : (discover walk).map fileProgress
        = (discover walk).map (fun e => e.content.length) := by
      refine List.map_congr_left (fun e he => ?_)
      rcases hall e he with ⟨h1, h2⟩
      unfold fileProgress ingestFile
      rw [h1, h2]
      simp [ingestLoop_none]
    rw [hmap]

theorem progress_counter_witness :
    runProgress walkOne = totalSize walkOne :=
  (progress_counter walkOne).2.2 (by decide)

/-- Claim C9, counterexample to the unconditional total: a run over a
single 3-byte file whose `File::open` fails ends with the counter at 0
while the up-front total is 3. -/
theorem progress_short_on_failure :
    runProgress [some fileBad] = 0
    ∧ totalSize [some fileBad] = 3
    ∧ runProgress [some fileBad] ≠ totalSize [some fileBad] :=
  ⟨rfl, rfl, by decide⟩

/-- Claim C10: enumeration keeps only regular files — directories and
symlinks survive neither `filter(file_type().is_file())` nor reach the
pipeline — so every report line and every archive entry stems from a
regular file, and an empty subdirectory leaves no trace for extraction
to reproduce. -/
theorem only_regular_files_archived (ext : Externals)
    (walk : List (Option DirEntry)) :
    (∀ e ∈ discover walk, e.kind = FileKind.file)
    ∧ (reportLines (runResults ext walk)).map (fun l => l.1)
        = (discover walk).map (fun e => e.relPath)
    ∧ (∀ pb ∈ compressEntries ext walk, ∃ e ∈ discover walk,
        e.kind = FileKind.file ∧ pb.1 = e.relPath) := by
  refine ⟨?_, ?_, ?_⟩
  · intro e he
    have hf := (List.mem_filter.mp he).2
    simpa using hf
  · rw [reportLines_eq_map]
    unfold runResults
    rw [List.map_map, List.map_map]
    exact List.map_congr_left (fun e _ => processFile_rel_path ext e)
  · intro pb hpb
    rcases List.mem_map.mp hpb with ⟨hb, hhb, hpb2⟩
    rcases writeArchive_mem hhb with ⟨f, hf, hfs, hfx⟩
    have hf2 : f ∈ (discover walk).map (processFile ext) := hf
    rcases List.mem_map.mp hf2 with ⟨e, he, hfe⟩
    refine ⟨e, he, ?_, ?_⟩
    · have hk := (List.mem_filter.mp he).2
      simpa using hk
    · have h1 : pb.1 = f.header.path := by
        rw [← hpb2, hfx]
      rw [h1, ← hfe]
      exact processFile_success_header ext e (by rw [hfe]; exact hfs)

theorem only_regular_files_archived_witness :
    (reportLines (runResults extMagic walkMixed)).map (fun l => l.1)
      = (discover walkMixed).map (fun e => e.relPath) :=
  (only_regular_files_archived extMagic walkMixed).2.1
